import Mathlib

/-!
Verification development for `github_deploy_repo.py` (cmu-delphi github-deploy-repo).

The Python source is shallowly embedded below.  Paths are plain strings;
`os.path` functions are modelled over the character list of the string, with
`..`/`.` resolution done segment-wise exactly as `os.path.abspath` (which is
purely textual and not symlink-aware).  Filesystem and subprocess effects are
modelled by explicit oracles (`Except` results supplied in an environment
record), and the observable behaviour of one deployment attempt is the list of
events it produces (actions dispatched, workspace teardown, status recording,
exception propagation).

The file has two parts: all definitions first (the embedding), then the
theorems about them.
-/

set_option autoImplicit false
set_option maxRecDepth 100000

namespace GithubDeployRepo

/-! ## Path arithmetic (os.path.abspath / join / split), embedded over List Char -/

/-- Split a character list on a separator character, like Python's
`str.split(sep)` for a one-character separator: `"a/b" ↦ ["a","b"]`,
`"/a" ↦ ["","a"]`, `"" ↦ [""]`. -/
def splitChar (sep : Char) : List Char → List (List Char)
  | [] => [[]]
  | ch :: rest =>
    let r := splitChar sep rest
    if ch = sep then [] :: r
    else
      match r with
      | [] => [[ch]]
      | s :: ss => (ch :: s) :: ss

/-- Segment normalisation performed by `os.path.abspath` on an absolute path:
empty segments and `.` disappear, `..` removes the previous segment (and is a
no-op at the root). -/
def normSegs (l : List (List Char)) : List (List Char) :=
  l.foldl
    (fun acc seg =>
      if seg = [] ∨ seg = ['.'] then acc
      else if seg = ['.', '.'] then acc.dropLast
      else acc ++ [seg])
    []

/-- Rebuild an absolute path string from its normalised segments
(`[] ↦ "/"`, `["a","b"] ↦ "/a/b"`), as `os.path.abspath` does. -/
def joinSegs (segs : List (List Char)) : List Char :=
  match segs with
  | [] => ['/']
  | _ => segs.foldl (fun acc s => acc ++ '/' :: s) []

/-- Python `str.startswith`: boolean string-prefix test on the raw characters. -/
def pyStartswith (s pre : String) : Bool :=
  pre.data.isPrefixOf s.data

/-- Contiguous-sublist test on character lists: does `pat` occur somewhere in
the second list? -/
def containsSub (pat : List Char) : List Char → Bool
  | [] => pat.isPrefixOf []
  | x :: xs => pat.isPrefixOf (x :: xs) || containsSub pat xs

/-- Python `a in b` on strings: substring containment. -/
def pySubstr (needle hay : String) : Bool :=
  containsSub needle.data hay.data

/-- Python `os.path.join(p, n)` for two components (POSIX): an absolute second
component wins; otherwise a `/` is inserted unless `p` already ends in one. -/
def pyJoin (p n : String) : String :=
  if pyStartswith n "/" then n
  else if p = "" then n
  else if p.data.getLast? = some '/' then ⟨p.data ++ n.data⟩
  else ⟨p.data ++ '/' :: n.data⟩

/-- Segments of `os.path.abspath(p)` evaluated with current working directory
`cwd` (assumed absolute, as in the deployed process). -/
def abspathSegs (cwd p : String) : List (List Char) :=
  if pyStartswith p "/" then normSegs (splitChar '/' p.data)
  else normSegs (splitChar '/' (cwd.data ++ '/' :: p.data))

/-- Python `os.path.abspath(p)` with current working directory `cwd`: join with
the cwd when relative, then purely textual normalisation (no symlink
resolution). -/
def abspath (cwd p : String) : String :=
  ⟨joinSegs (abspathSegs cwd p)⟩

/-! ## get_file / check_file (PathResolver and AccessGuard, lines 172-199) -/

/-- Result quadruple of `get_file` (lines 180-193): absolute path, containing
directory, base name, and extension (everything after the first dot of the
base name). -/
structure ResolvedPath where
  abs : String
  dir : String
  base : String
  ext : String
deriving DecidableEq

/-- Replace every occurrence of `pat` in `s`, left to right without overlap,
like Python `str.replace` (the degenerate empty pattern never arises: the
caller always passes a bracketed pattern). -/
def replaceAll (pat repl s : List Char) : List Char :=
  if pat = [] then s else go s.length s
where
  go : Nat → List Char → List Char
    | _, [] => []
    | 0, rest => rest
    | Nat.succ fuel, x :: xs =>
      if pat.isPrefixOf (x :: xs) then repl ++ go fuel (List.drop pat.length (x :: xs))
      else x :: go fuel xs

/-- Embedding of `get_substituted_path` (lines 172-177): rewrite each `[[key]]`
placeholder present in the path to its value, in substitution order. -/
def get_substituted_path (path : String) (subs : List (String × String)) : String :=
  subs.foldl
    (fun acc kv =>
      let pat := ('[' :: '[' :: kv.1.data) ++ [']', ']']
      if containsSub pat acc.data then ⟨replaceAll pat kv.2.data acc.data⟩ else acc)
    path

/-- Extension rule of `get_file` (lines 189-192): everything after the first
`.` of the base name, or the empty string when there is no dot. -/
def extOf (base : List Char) : String :=
  match splitChar '.' base with
  | [] => ""
  | [_] => ""
  | _ :: rest => ⟨joinDots rest⟩
where
  /-- Rejoin the post-dot pieces with dots, so `foo.min.js ↦ min.js`. -/
  joinDots : List (List Char) → List Char
    | [] => []
    | [s] => s
    | s :: ss => s ++ '.' :: joinDots ss

/-- Embedding of `get_file` (lines 180-193): substitute placeholders,
optionally join with a base directory, take the absolute path, and split it
into directory, base name and extension. -/
def get_file (cwd name : String) (path : Option String) (subs : List (String × String)) :
    ResolvedPath :=
  let n1 := get_substituted_path name subs
  let n2 := match path with
    | some p => pyJoin p n1
    | none => n1
  let segs := abspathSegs cwd n2
  let base : List Char := (segs.getLastD [])
  { abs := ⟨joinSegs segs⟩
    dir := ⟨joinSegs segs.dropLast⟩
    base := ⟨base⟩
    ext := extOf base }

/-- Embedding of `check_file` (lines 196-199), the access guard: resolve the
workspace root with `get_file`, then accept the already-resolved absolute path
iff its string starts with the resolved root (`str.startswith`). -/
def check_file (abspath_ path cwd : String) : Except String Unit :=
  let source_dir := (get_file cwd path none []).abs
  if pyStartswith abspath_ source_dir then Except.ok ()
  else Except.error ("file [" ++ abspath_ ++ "] is not inside [" ++ source_dir ++ "]")

/-- Specification-side notion used by claim C1: `p` is a descendant of `root`
when it is `root` itself or lives below it as a path (root followed by a
separator), both taken as resolved absolute paths. -/
def isDescendant (p root : String) : Bool :=
  p == root || pyStartswith p (root ++ "/")

/-! ## copymove file selection (lines 306-324) and the `re.match` fragment

`copymove` with a `match` field enumerates `glob.glob(os.path.join(src, '*'))`
— the immediate children of the source directory whose names do not begin with
a dot (the glob wildcard `*` never matches a leading dot) — and keeps a child
iff `re.match(row['match'], basename)` succeeds.  `re.match` anchors the
pattern at the *beginning* of the string (it does not search).  We embed the
selection at the level of child base names: for a plain child name `n` (no
separator, not starting with a dot), `get_file(os.path.join(src, n))[2]`
returns `n` itself.  The regular-expression engine below covers the fragment
needed by the claims: literal characters, backslash escapes, `.`, and the `$`
anchor, with `re.match`'s anchored-prefix semantics. -/

/-- Token of the embedded regular-expression fragment. -/
inductive RxTok where
  | lit (c : Char)
  | anyChar
  | eos
deriving DecidableEq

/-- Parse a pattern string of the supported fragment into tokens: `\\c` is the
literal `c`, `.` matches any character, `$` anchors at the end, and any other
character is a literal. -/
def parseRx : List Char → List RxTok
  | [] => []
  | '\\' :: c :: rest => RxTok.lit c :: parseRx rest
  | '\\' :: [] => []
  | '$' :: rest => RxTok.eos :: parseRx rest
  | '.' :: rest => RxTok.anyChar :: parseRx rest
  | c :: rest => RxTok.lit c :: parseRx rest

/-- Anchored matching of a token list against the beginning of a string, the
semantics of Python `re.match` for the supported fragment (the pattern needs
to consume only a prefix unless it ends with `$`). -/
def reMatch : List RxTok → List Char → Bool
  | [], _ => true
  | RxTok.eos :: rest, [] => reMatch rest []
  | RxTok.eos :: _, _ :: _ => false
  | RxTok.lit c :: rest, x :: xs => c == x && reMatch rest xs
  | RxTok.lit _ :: _, [] => false
  | RxTok.anyChar :: rest, _ :: xs => reMatch rest xs
  | RxTok.anyChar :: _, [] => false

/-- Python `re.match(pattern, s) is not None` for the supported pattern
fragment. -/
def re_match (pattern s : String) : Bool :=
  reMatch (parseRx pattern.data) s.data

/-- The children of a directory enumerated by `glob.glob(os.path.join(dir, '*'))`
(line 313), given the directory's child base names: the glob `*` wildcard
skips names that begin with a dot. -/
def glob_children (listing : List String) : List String :=
  listing.filter (fun n => !(pyStartswith n "."))

/-- File selection of `copymove` when `match` is present (lines 311-318):
the non-hidden immediate children of the source directory whose base name is
accepted by the matcher `m` (which stands for `re.match(row['match'], ·)`);
each selected name is copied to the destination directory under the same base
name. -/
def copymove_matched (m : String → Bool) (listing : List String) : List String :=
  (glob_children listing).filter m

/-- The full selection loop of `copymove` with `match` present (lines
311-318), over a list of child base names (each globbed child is the full
path `os.path.join(src0, name)`): resolve the child with `get_file`, take its
base name, keep the child iff the matcher accepts that base name, and pair it
with the destination `get_file(os.path.join(dst0, basename))` of line 318 —
the destination mirrors the source base name under the destination
directory. -/
def copymove_pairs (cwd src0 dst0 : String) (m : String → Bool) :
    List String → List (ResolvedPath × ResolvedPath)
  | [] => []
  | name :: rest =>
    if m (get_file cwd (pyJoin src0 name) none []).base then
      (get_file cwd (pyJoin src0 name) none [],
        get_file cwd (pyJoin dst0 (get_file cwd (pyJoin src0 name) none []).base) none []) ::
        copymove_pairs cwd src0 dst0 m rest
    else copymove_pairs cwd src0 dst0 m rest

/-- Source/destination pairs produced by a `copy`/`move` action with `match`
present (lines 311-318), given the source directory's child base names: the
glob enumeration first drops hidden children, then the loop of
`copymove_pairs` filters by the matcher and computes both resolved paths. -/
def copymove_match_pairs (cwd src0 dst0 : String) (m : String → Bool)
    (listing : List String) : List (ResolvedPath × ResolvedPath) :=
  copymove_pairs cwd src0 dst0 m (glob_children listing)

/-! ## add_header (lines 202-245), the provenance-header injector -/

/-- Python `str.lower` (ASCII, as used on file extensions). -/
def pyLower (s : String) : String :=
  ⟨s.data.map Char.toLower⟩

/-- Python `str.center(width)`: pad with spaces to `width`, extra padding
distributed as CPython does (`left = marg / 2 + (marg & width & 1)`); strings
already at least `width` long are returned unchanged. -/
def pyCenter (s : String) (width : Nat) : String :=
  if width ≤ s.length then s
  else
    let marg := width - s.length
    let left := marg / 2 + (marg &&& width &&& 1)
    ⟨List.replicate left ' ' ++ s.data ++ List.replicate (marg - left) ' '⟩

/-- Banner width used for centering (line 161). -/
def HEADER_WIDTH : Nat := 55

/-- The fixed ASCII-art "DO NOT EDIT" banner (lines 162-169). -/
def HEADER_LINES : List String :=
  [" ____   ___    _   _  ___ _____   _____ ____ ___ _____ ",
   "|  _ \\ / _ \\  | \\ | |/ _ \\_   _| | ____|  _ \\_ _|_   _|",
   "| | | | | | | |  \\| | | | || |   |  _| | | | | |  | |  ",
   "| |_| | |_| | | |\\  | |_| || |   | |___| |_| | |  | |  ",
   "|____/ \\___/  |_| \\_|\\___/ |_|   |_____|____/___| |_|  "]

/-- The three blank lines appended after each header (line 206). -/
def blanks : String := "\n\n\n"

/-- The generated metadata lines (lines 224-231); the timestamp is passed in as
its already-formatted date string `dt` and epoch-seconds value `t`. -/
def headerMetaLines (repo_link commit dt : String) (t : Nat) : List String :=
  ["",
   "Automatically generated from sources at:",
   repo_link,
   "",
   "Commit hash: " ++ commit,
   "Deployed at: " ++ dt ++ " (" ++ toString t ++ ")"]

/-- The line block written between `pre_block` and `post_block` (lines
236-240): every banner line and every centered metadata line, each wrapped in
`pre_line`/`post_line` and terminated by a newline. -/
def headerBody (pre_line post_line repo_link commit dt : String) (t : Nat) : String :=
  String.join
    ((HEADER_LINES ++
        (headerMetaLines repo_link commit dt t).map (fun l => pyCenter l HEADER_WIDTH)).map
      (fun l => pre_line ++ l ++ post_line ++ "\n"))

/-- One full injected header: opening wrapper, line block, closing wrapper. -/
def headerBlock (pre_block post_block pre_line post_line repo_link commit dt : String)
    (t : Nat) : String :=
  pre_block ++ headerBody pre_line post_line repo_link commit dt t ++ post_block

/-- Embedding of `add_header` (lines 202-245) as a function on file contents:
dispatch on the lower-cased destination extension exactly as the source does —
note that the last branch is Python `ext in ('php')`, a *substring* test
against the string `"php"` — and produce the new file's content.  The header
(including its closing wrapper) is written first and the original content
`src` is appended after it (lines 236-242); an extension matching no branch
returns the content unchanged (lines 216-219, a warning, not an error). -/
def add_header (repo_link commit dt : String) (t : Nat) (dst_ext src : String) : String :=
  let ext := pyLower dst_ext
  if (["html", "xml"] : List String).contains ext then
    headerBlock "<!--\n" ("-->\n" ++ blanks) "" "" repo_link commit dt t ++ src
  else if (["js", "min.js", "css", "c", "cpp", "h", "hpp", "java"] : List String).contains ext then
    headerBlock "/*\n" ("*/\n" ++ blanks) "" "" repo_link commit dt t ++ src
  else if (["py", "r", "coffee", "htaccess"] : List String).contains ext then
    headerBlock "" blanks "# " " #" repo_link commit dt t ++ src
  else if pySubstr ext "php" then
    headerBlock "<?php /*\n" ("*/\n" ++ blanks ++ "?>") "" "" repo_link commit dt t ++ src
  else src

/-- The extensions for which some branch of `add_header` fires (including the
substring-based `php` branch). -/
def header_branch (dst_ext : String) : Bool :=
  let ext := pyLower dst_ext
  (["html", "xml"] : List String).contains ext ||
    (["js", "min.js", "css", "c", "cpp", "h", "hpp", "java"] : List String).contains ext ||
    (["py", "r", "coffee", "htaccess"] : List String).contains ext ||
    pySubstr ext "php"

/-! ## action_import (lines 376-391)

The state of the destination path is one of: nothing there, a symbolic link
(whose target may or may not exist — `os.path.exists` *follows* links, so a
dangling link reports as non-existent while `os.path.islink` still reports it
as a link), or a non-link object.  `os.symlink` creates the link without
requiring the target to exist, and raises a file-exists error when anything
(even a dangling link) already occupies the destination name. -/

/-- What occupies the destination path of an `import` action. -/
inductive DstObj where
  | absent
  | symlink (targetExists : Bool)
  | nonLink
deriving DecidableEq

/-- Errors an `import` action can raise. -/
inductive ImportErr where
  | fileExists
  | conflict
deriving DecidableEq

/-- Embedding of `action_import` (lines 383-390) on the destination state,
with `srcExists` telling whether the shared-directory source of the link
exists: if `os.path.exists(dst)` is false the code calls `os.symlink` (which
itself fails when a dangling link occupies the name); else if
`os.path.islink(dst)` it returns silently; else it raises `object with
destination name already exists`. -/
def action_import (srcExists : Bool) (d : DstObj) : Except ImportErr DstObj :=
  match d with
  | DstObj.absent => Except.ok (DstObj.symlink srcExists)
  | DstObj.symlink te =>
    if te then Except.ok (DstObj.symlink te)
    else Except.error ImportErr.fileExists
  | DstObj.nonLink => Except.error ImportErr.conflict

/-! ## execute / deploy_repo / deploy_all (lines 393-538)

The instruction document is modelled by the fields `execute` actually
inspects; the filesystem and subprocess effects of one deployment are
modelled by oracles in a `DeployEnv` record (`fetch` bundles lines 459-497:
temporary-directory creation plus clone or extraction, returning the commit /
content hash; `run i` is the external effect of dispatching action `i`;
`cleanup` is the `shutil.rmtree` of line 513).  One attempt produces a list of
observable events: actions dispatched, the teardown attempt, the status row
written by `set_repo_status`, and the exception finally re-raised, in program
order. -/

/-- Exceptions of the deployment pipeline.  `external` stands for any
exception raised by an oracle (fetch, an action's effect, cleanup). -/
inductive Err where
  | notDict
  | invalidConfig (field : String)
  | invalidAction (pos total : Nat)
  | unsupportedAction (a : String)
  | external (tag : Nat)
deriving DecidableEq

/-- One entry of the `actions` list: a comment string, an object carrying a
string `type`, or anything else (neither a string nor such an object). -/
inductive Row where
  | comment (s : String)
  | act (ty : String)
  | malformed
deriving DecidableEq

/-- The parsed instruction document, reduced to the fields `execute` reads:
whether the JSON root is an object, the `type` sentinel, the `version` field
(`cfg.get('version', 0)` when absent), the `actions` field (`none` when absent
or not a list), and whether `skip` is literally `true`. -/
structure Cfg where
  isDict : Bool
  typeField : Option String
  versionField : Option Int
  actionsField : Option (List Row)
  skipTrue : Bool

/-- The keys of the executor dispatch table (lines 429-436). -/
def executorKeys : List String :=
  ["copy", "move", "compile-coffee", "minimize-js", "export", "import"]

/-- The action loop of `execute` (lines 437-450): comments are skipped,
malformed rows abort with `invalid action (i+1/total)`, recognized action
types run their executor (whose external effect is `run i`), an unrecognized
type aborts with `unsupported action`.  Returns the indices of the actions
dispatched and the exception, if one aborted the loop. -/
def runActions (run : Nat → Except Err Unit) (total : Nat) :
    Nat → List Row → List Nat × Option Err
  | _, [] => ([], none)
  | i, Row.comment _ :: rest => runActions run total (i + 1) rest
  | i, Row.malformed :: _ => ([], some (Err.invalidAction (i + 1) total))
  | i, Row.act ty :: rest =>
    let a := pyLower ty
    if executorKeys.contains a then
      match run i with
      | Except.ok _ =>
        let r := runActions run total (i + 1) rest
        (i :: r.1, r.2)
      | Except.error e => ([i], some e)
    else ([], some (Err.unsupportedAction a))

/-- Embedding of `execute` (lines 393-450): the root must be an object, then
the sanity checks fire in order (`type` sentinel, `version` in `1..1`,
`actions` a list), then a literal-`true` `skip` short-circuits successfully,
else the actions run sequentially. -/
def execute (cfg : Cfg) (run : Nat → Except Err Unit) : List Nat × Option Err :=
  if cfg.isDict = false then ([], some Err.notDict)
  else if cfg.typeField ≠ some "delphi deploy config" then
    ([], some (Err.invalidConfig "type"))
  else if ¬(1 ≤ cfg.versionField.getD 0 ∧ cfg.versionField.getD 0 ≤ 1) then
    ([], some (Err.invalidConfig "version"))
  else
    match cfg.actionsField with
    | none => ([], some (Err.invalidConfig "actions"))
    | some rows =>
      if cfg.skipTrue then ([], none)
      else runActions run rows.length 0 rows

/-- The oracles of one deployment attempt: the fetch (returning the commit /
content hash), the parsed instruction document (`none` when no `deploy.json`
exists at the workspace root), the external effect of each dispatched action,
and the workspace teardown. -/
structure DeployEnv where
  fetch : Except Err String
  config : Option Cfg
  run : Nat → Except Err Unit
  cleanup : Except Err Unit

/-- Observable events of one deployment attempt, in program order. -/
inductive Ev where
  | action (i : Nat)
  | teardown (ok : Bool)
  | setStatus (commit : Option String) (status : Int)
  | raised (e : Err)
deriving DecidableEq

/-- Outcome of the `try` block of `deploy_repo` (lines 458-509): dispatched
actions, status code, commit written to the status store, and the caught
exception.  `status` starts at `-1` and becomes `1` only when `execute`
returns and `2` when no instruction document exists; `commit` stays `None`
when the fetch fails. -/
structure Attempt where
  acts : List Nat
  status : Int
  commit : Option String
  exc : Option Err

/-- The `try` block of `deploy_repo` evaluated for the given oracles. -/
def attempt (env : DeployEnv) : Attempt :=
  match env.fetch with
  | Except.error e => ⟨[], -1, none, some e⟩
  | Except.ok c =>
    match env.config with
    | none => ⟨[], 2, some c, none⟩
    | some cfg =>
      match execute cfg env.run with
      | (ex, none) => ⟨ex, 1, some c, none⟩
      | (ex, some e) => ⟨ex, -1, some c, some e⟩

/-- Embedding of `deploy_repo` (lines 453-523) as its event trace: the try
block runs, the workspace teardown is attempted unconditionally (its exception
replaces the pending one only when there is none, lines 512-516),
`set_repo_status` writes the outcome (line 519), and the pending exception, if
any, is re-raised last (lines 522-523). -/
def deploy_repo (env : DeployEnv) : List Ev :=
  let a := attempt env
  let cleanupOk := match env.cleanup with
    | Except.ok _ => true
    | Except.error _ => false
  let exc := match a.exc with
    | some e => some e
    | none =>
      match env.cleanup with
      | Except.ok _ => none
      | Except.error e => some e
  a.acts.map Ev.action ++ [Ev.teardown cleanupOk, Ev.setStatus a.commit a.status] ++
    (match exc with
     | some e => [Ev.raised e]
     | none => [])

/-- Project an event to the exception it re-raises, if it is one. -/
def raisedEv : Ev → Option Err
  | Ev.raised e => some e
  | _ => none

/-- The exception a trace re-raises to the caller, if any. -/
def raisedOf (tr : List Ev) : Option Err :=
  (tr.filterMap raisedEv).head?

/-- The loop of `deploy_all` (lines 528-534): every unit is attempted in
order; each raised exception is caught and appended to the running list. -/
def deploy_all_go : List DeployEnv → List (List Ev) × List Err
  | [] => ([], [])
  | env :: rest =>
    let tr := deploy_repo env
    let r := deploy_all_go rest
    (tr :: r.1, (raisedOf tr).toList ++ r.2)

/-- Embedding of `deploy_all` (lines 526-538): run every unit, then re-raise
the first captured exception if any (`raise exceptions[0]`). -/
def deploy_all (envs : List DeployEnv) : List (List Ev) × Option Err :=
  let r := deploy_all_go envs
  (r.1, r.2.head?)

/-! # Theorems -/

/-! ## Helper lemmas -/

theorem isPrefixOf_append_self (l t : List Char) : l.isPrefixOf (l ++ t) = true := by
  induction l with
  | nil => simp [List.isPrefixOf]
  | cons c l ih => simp [List.isPrefixOf, ih]

theorem data_append (s t : String) : (s ++ t).data = s.data ++ t.data := rfl

theorem data_mk (l : List Char) : (String.mk l).data = l := rfl

theorem string_eta (s : String) : (⟨s.data⟩ : String) = s := by
  cases s
  rfl

theorem splitChar_ne_nil (sep : Char) (l : List Char) : splitChar sep l ≠ [] := by
  induction l with
  | nil => simp [splitChar]
  | cons ch rest ih =>
    unfold splitChar
    by_cases h : ch = sep
    · simp [h]
    · simp only [h, if_false]
      cases hr : splitChar sep rest with
      | nil => exact absurd hr ih
      | cons s ss => simp

theorem splitChar_cons (sep ch : Char) (rest : List Char) :
    splitChar sep (ch :: rest) =
      if ch = sep then [] :: splitChar sep rest
      else
        match splitChar sep rest with
        | [] => [[ch]]
        | s :: ss => (ch :: s) :: ss := rfl

theorem splitChar_append (sep : Char) (xs ys : List Char) :
    splitChar sep (xs ++ sep :: ys) = splitChar sep xs ++ splitChar sep ys := by
  induction xs with
  | nil => simp [splitChar]
  | cons ch rest ih =>
    by_cases h : ch = sep
    · subst h
      simp [List.cons_append, splitChar_cons, ih]
    · obtain ⟨s, ss, hr⟩ : ∃ s ss, splitChar sep rest = s :: ss := by
        cases hr : splitChar sep rest with
        | nil => exact absurd hr (splitChar_ne_nil sep rest)
        | cons s ss => exact ⟨s, ss, rfl⟩
      simp [List.cons_append, splitChar_cons, h, ih, hr]

theorem splitChar_no_sep (sep : Char) (l : List Char) (h : sep ∉ l) :
    splitChar sep l = [l] := by
  induction l with
  | nil => rfl
  | cons ch rest ih =>
    have hch : ¬ ch = sep := by
      intro e
      exact h (e ▸ List.mem_cons_self _ _)
    have hrest : sep ∉ rest := fun hm => h (List.mem_cons_of_mem _ hm)
    unfold splitChar
    simp [hch, ih hrest]

theorem normSegs_append_good (l : List (List Char)) (seg : List Char)
    (h0 : seg ≠ []) (h1 : seg ≠ ['.']) (h2 : seg ≠ ['.', '.']) :
    normSegs (l ++ [seg]) = normSegs l ++ [seg] := by
  unfold normSegs
  rw [List.foldl_append]
  simp [h0, h1, h2]

theorem getLast_decomp {α : Type} (l : List α) (a : α) (h : l.getLast? = some a) :
    ∃ t, l = t ++ [a] := by
  induction l with
  | nil => cases h
  | cons x xs ih =>
    cases xs with
    | nil =>
      simp [List.getLast?] at h
      exact ⟨[], by simp [h]⟩
    | cons y ys =>
      rw [List.getLast?_cons_cons] at h
      obtain ⟨t, ht⟩ := ih h
      exact ⟨x :: t, by rw [List.cons_append, ht]⟩

theorem pyStartswith_data (s : String) (l : List Char) :
    pyStartswith s ⟨l⟩ = l.isPrefixOf s.data := rfl

/-- A resolved absolute path of the form `A ++ "/" ++ nd`, with `nd` a plain
name (nonempty, no separator, not `.` or `..`), has base name `nd` under
`get_file`: the last path segment survives normalisation untouched. -/
theorem get_file_abs_concat_base (cwd : String) (A nd : List Char)
    (hhead : (A ++ '/' :: nd).head? = some '/')
    (hn : nd ≠ []) (hsep : '/' ∉ nd) (h1 : nd ≠ ['.']) (h2 : nd ≠ ['.', '.']) :
    (get_file cwd ⟨A ++ '/' :: nd⟩ none []).base = ⟨nd⟩ := by
  have hstart : pyStartswith (⟨A ++ '/' :: nd⟩ : String) "/" = true := by
    rw [show ("/" : String) = ⟨['/']⟩ from rfl, pyStartswith_data, data_mk]
    cases A with
    | nil => simp [List.isPrefixOf]
    | cons x xs =>
      have hx : x = '/' := by simpa using hhead
      subst hx
      simp [List.isPrefixOf]
  show (⟨((abspathSegs cwd ⟨A ++ '/' :: nd⟩).getLastD [])⟩ : String) = ⟨nd⟩
  unfold abspathSegs
  rw [if_pos hstart, data_mk, splitChar_append, splitChar_no_sep '/' nd hsep,
    normSegs_append_good _ nd hn h1 h2, List.getLastD_concat]

/-- The base name computed by `get_file(os.path.join(d, n))` is `n` itself,
when `d` is an absolute path string and `n` a plain child name. -/
theorem get_file_join_base (cwd d n : String)
    (hd : pyStartswith d "/" = true)
    (hn : n.data ≠ []) (hsep : '/' ∉ n.data) (h1 : n.data ≠ ['.']) (h2 : n.data ≠ ['.', '.']) :
    (get_file cwd (pyJoin d n) none []).base = n := by
  obtain ⟨dtail, hdd⟩ : ∃ t, d.data = '/' :: t := by
    rw [show ("/" : String) = ⟨['/']⟩ from rfl, pyStartswith_data] at hd
    cases hdata : d.data with
    | nil => rw [hdata] at hd; simp [List.isPrefixOf] at hd
    | cons x xs =>
      rw [hdata] at hd
      simp [List.isPrefixOf] at hd
      exact ⟨xs, by rw [hd]⟩
  have hnstart : pyStartswith n "/" = false := by
    rw [show ("/" : String) = ⟨['/']⟩ from rfl, pyStartswith_data]
    cases hnd : n.data with
    | nil => exact absurd hnd hn
    | cons c cs =>
      have hc : ¬ '/' = c := by
        intro e
        apply hsep
        rw [hnd, ← e]
        exact List.mem_cons_self _ _
      simp [List.isPrefixOf, hc]
  have hdne : ¬ d = "" := by
    intro e
    rw [e] at hdd
    simp at hdd
  unfold pyJoin
  rw [hnstart]
  simp only [Bool.false_eq_true, if_false, hdne]
  by_cases hlast : d.data.getLast? = some '/'
  · rw [if_pos hlast]
    obtain ⟨C, hC⟩ := getLast_decomp d.data '/' hlast
    have hconc : d.data ++ n.data = C ++ '/' :: n.data := by
      rw [hC]
      simp
    rw [hconc]
    have hhead : (C ++ '/' :: n.data).head? = some '/' := by
      cases C with
      | nil => simp
      | cons y ys =>
        have hy : y = '/' := by
          have h1' := hdd
          rw [hC] at h1'
          simpa using congrArg List.head? h1'
        subst hy
        simp
    rw [get_file_abs_concat_base cwd C n.data hhead hn hsep h1 h2, string_eta]
  · rw [if_neg hlast]
    have hhead : (d.data ++ '/' :: n.data).head? = some '/' := by
      rw [hdd]
      simp
    rw [get_file_abs_concat_base cwd d.data n.data hhead hn hsep h1 h2, string_eta]

/-- Specification of the `copymove` pair loop over plain child names: the
selected sources are exactly the names accepted by the matcher, and every
destination carries the same base name as its source. -/
theorem copymove_pairs_spec (cwd src0 dst0 : String) (m : String → Bool)
    (hs : pyStartswith src0 "/" = true) (hd : pyStartswith dst0 "/" = true)
    (names : List String)
    (hgood : ∀ x ∈ names, x.data ≠ [] ∧ '/' ∉ x.data ∧ x.data ≠ ['.'] ∧ x.data ≠ ['.', '.']) :
    (copymove_pairs cwd src0 dst0 m names).map (fun pr => pr.1.base) = names.filter m ∧
      ∀ pr ∈ copymove_pairs cwd src0 dst0 m names, pr.2.base = pr.1.base := by
  induction names with
  | nil => exact ⟨rfl, by intro pr h; simp [copymove_pairs] at h⟩
  | cons name rest ih =>
    obtain ⟨hn0, hns, hn1, hn2⟩ := hgood name (List.mem_cons_self _ _)
    have hrest := fun x hx => hgood x (List.mem_cons_of_mem _ hx)
    have hsbase : (get_file cwd (pyJoin src0 name) none []).base = name :=
      get_file_join_base cwd src0 name hs hn0 hns hn1 hn2
    have hdbase : (get_file cwd (pyJoin dst0 name) none []).base = name :=
      get_file_join_base cwd dst0 name hd hn0 hns hn1 hn2
    obtain ⟨ih1, ih2⟩ := ih hrest
    rw [show copymove_pairs cwd src0 dst0 m (name :: rest) =
        if m (get_file cwd (pyJoin src0 name) none []).base then
          (get_file cwd (pyJoin src0 name) none [],
            get_file cwd
              (pyJoin dst0 (get_file cwd (pyJoin src0 name) none []).base) none []) ::
            copymove_pairs cwd src0 dst0 m rest
        else copymove_pairs cwd src0 dst0 m rest from rfl, hsbase]
    by_cases hm : m name = true
    · rw [if_pos hm]
      constructor
      · simp [List.map_cons, hsbase, ih1, List.filter_cons, hm]
      · intro pr hpr
        rcases List.mem_cons.mp hpr with h | h
        · subst h
          simp only [hdbase, hsbase]
        · exact ih2 pr h
    · rw [if_neg hm]
      constructor
      · rw [ih1, List.filter_cons]
        simp [hm]
      · exact ih2

theorem filterMap_raisedEv_actions (acts : List Nat) :
    (acts.map Ev.action).filterMap raisedEv = [] := by
  induction acts with
  | nil => rfl
  | cons a l ih => simp [List.filterMap_cons, raisedEv, ih]

theorem raisedOf_actions_append (acts : List Nat) (rest : List Ev) :
    raisedOf (acts.map Ev.action ++ rest) = raisedOf rest := by
  unfold raisedOf
  rw [List.filterMap_append, filterMap_raisedEv_actions, List.nil_append]

theorem deploy_all_go_spec (envs : List DeployEnv) :
    (deploy_all_go envs).1 = envs.map deploy_repo ∧
      (deploy_all_go envs).2 = envs.filterMap (fun env => raisedOf (deploy_repo env)) := by
  induction envs with
  | nil => exact ⟨rfl, rfl⟩
  | cons env rest ih =>
    constructor
    · simp [deploy_all_go, ih.1]
    · simp only [deploy_all_go, ih.2, List.filterMap_cons]
      cases raisedOf (deploy_repo env) <;> simp

/-! ## Claim C1 -/

/-- Claim C1, counterexample.  The access guard is a raw string-prefix test:
with workspace root resolving to `/w/tmp`, the path `/w/tmpevil/f` is accepted
by `check_file` even though it is not a descendant of the root.  This refutes
"the check rejects every path that is not a descendant of the workspace
root". -/
theorem C1_counterexample :
    check_file "/w/tmpevil/f" "/w/tmp" "/" = Except.ok () ∧
      isDescendant "/w/tmpevil/f" "/w/tmp" = false := by
  constructor
  · rfl
  · rfl

/-- Claim C1, amended.  `check_file` accepts exactly the paths whose string
starts with the workspace root's absolute resolution: it never rejects a path
strictly inside the root (anything of the form `root ++ "/" ++ s`), and it
rejects every path — including `..`-resolved and absolute paths outside the
root — whose string does not extend the root's string; but a non-descendant
whose string merely extends the root's string (for example a sibling directory
named `root` plus a suffix) is not rejected. -/
theorem C1_amended (cwd path p s : String) :
    check_file ((get_file cwd path none []).abs ++ "/" ++ s) path cwd = Except.ok () ∧
      (check_file p path cwd = Except.ok () ↔
        pyStartswith p ((get_file cwd path none []).abs) = true) := by
  constructor
  · have h : pyStartswith ((get_file cwd path none []).abs ++ "/" ++ s)
        ((get_file cwd path none []).abs) = true := by
      unfold pyStartswith
      rw [data_append, data_append, List.append_assoc]
      exact isPrefixOf_append_self _ _
    unfold check_file
    simp [h]
  · unfold check_file
    constructor
    · intro h
      by_contra hb
      rw [Bool.not_eq_true] at hb
      simp [hb] at h
    · intro h
      simp [h]

/-- Claim C1, witness for the amended claim: a path strictly inside the root
is accepted; the characterization instantiated at `/etc/passwd` (which is
rejected: the root resolves to `/w/tmp`, not a prefix of `/etc/passwd`). -/
theorem C1_amended_witness :
    check_file ((get_file "/" "/w/tmp" none []).abs ++ "/" ++ "f") "/w/tmp" "/" =
        Except.ok () ∧
      (check_file "/etc/passwd" "/w/tmp" "/" = Except.ok () ↔
        pyStartswith "/etc/passwd" ((get_file "/" "/w/tmp" none []).abs) = true) :=
  ⟨(C1_amended "/" "/w/tmp" "/etc/passwd" "f").1,
   (C1_amended "/" "/w/tmp" "/etc/passwd" "f").2⟩

/-! ## Claim C2 -/

/-- Claim C2, counterexample.  `re.match` anchors the pattern at the start of
the base name, so the pattern `\.js$` (written `"\\.js$"` in the instruction
document) matches none of `a.js`, `b.js`, `c.txt`: the `copy` action with that
`match` copies nothing at all, not `a.js` and `b.js` as claimed. -/
theorem C2_counterexample :
    copymove_matched (re_match "\\.js$") ["a.js", "b.js", "c.txt"] ≠ ["a.js", "b.js"] ∧
      copymove_matched (re_match "\\.js$") ["a.js", "b.js", "c.txt"] = [] := by
  constructor
  · decide
  · decide

/-- Claim C2, amended.  With `match` present, exactly the non-hidden immediate
children of the source directory whose base name matches the `match` regular
expression *at its beginning* (Python `re.match` anchoring, not a search) are
processed, and each selected child is paired with a destination under the
destination directory carrying the child's own base name (line 318); in
particular, with `match` equal to `\.js$` and a source directory containing
exactly `a.js`, `b.js`, `c.txt`, no file is copied at all.  The
destination-naming part holds for absolute source/destination directories and
plain child names (nonempty, no separator), which is what the directory
enumeration produces. -/
theorem C2_amended (cwd src0 dst0 : String) (m : String → Bool) (listing : List String)
    (n : String) :
    (n ∈ copymove_matched m listing ↔
        n ∈ listing ∧ pyStartswith n "." = false ∧ m n = true) ∧
      copymove_matched (re_match "\\.js$") ["a.js", "b.js", "c.txt"] = [] ∧
      ((∀ x ∈ listing, x.data ≠ [] ∧ '/' ∉ x.data) →
        pyStartswith src0 "/" = true → pyStartswith dst0 "/" = true →
        (copymove_match_pairs cwd src0 dst0 m listing).map (fun pr => pr.1.base) =
            copymove_matched m listing ∧
          ∀ pr ∈ copymove_match_pairs cwd src0 dst0 m listing, pr.2.base = pr.1.base) ∧
      copymove_match_pairs "/" "/repo" "/var/www/html/js" (re_match "\\.js$")
          ["a.js", "b.js", "c.txt"] = [] := by
  refine ⟨?_, by decide, ?_, by decide⟩
  · unfold copymove_matched glob_children
    simp [List.mem_filter]
    tauto
  · intro hplain hs hd
    have hgood : ∀ x ∈ glob_children listing,
        x.data ≠ [] ∧ '/' ∉ x.data ∧ x.data ≠ ['.'] ∧ x.data ≠ ['.', '.'] := by
      intro x hx
      have hxl : x ∈ listing := (List.mem_filter.mp hx).1
      have hnh : (!(pyStartswith x ".")) = true := (List.mem_filter.mp hx).2
      obtain ⟨hx0, hxs⟩ := hplain x hxl
      have hdot : ∀ t, x.data ≠ '.' :: t := by
        intro t e
        have hps : pyStartswith x "." = true := by
          rw [show ("." : String) = ⟨['.']⟩ from rfl, pyStartswith_data, e]
          simp [List.isPrefixOf]
        rw [hps] at hnh
        simp at hnh
      exact ⟨hx0, hxs, hdot [], hdot ['.']⟩
    exact copymove_pairs_spec cwd src0 dst0 m hs hd (glob_children listing) hgood

/-- Claim C2, witness for the amended claim at concrete inputs: with the
anchored matcher for pattern `b` over the scenario listing, the selected
sources are exactly `b.js` (by its base name), every destination mirrors its
source base name, and the scenario pattern `\.js$` selects nothing — both at
the selection level and through the full pair pipeline. -/
theorem C2_amended_witness :
    ((copymove_match_pairs "/" "/w/s" "/w/d" (re_match "b")
            ["a.js", "b.js", "c.txt"]).map (fun pr => pr.1.base) =
          copymove_matched (re_match "b") ["a.js", "b.js", "c.txt"] ∧
        ∀ pr ∈ copymove_match_pairs "/" "/w/s" "/w/d" (re_match "b")
            ["a.js", "b.js", "c.txt"], pr.2.base = pr.1.base) ∧
      copymove_matched (re_match "\\.js$") ["a.js", "b.js", "c.txt"] = [] ∧
      copymove_match_pairs "/" "/repo" "/var/www/html/js" (re_match "\\.js$")
          ["a.js", "b.js", "c.txt"] = [] :=
  ⟨(C2_amended "/" "/w/s" "/w/d" (re_match "b") ["a.js", "b.js", "c.txt"] "b.js").2.2.1
      (by decide) (by decide) (by decide),
   (C2_amended "/" "/w/s" "/w/d" (re_match "b") ["a.js", "b.js", "c.txt"] "b.js").2.1,
   (C2_amended "/" "/w/s" "/w/d" (re_match "b") ["a.js", "b.js", "c.txt"] "b.js").2.2.2⟩

/-! ## Claim C3 -/

/-- Claim C3, counterexample.  A unit whose workspace has no instruction
document is recorded as skipped (2), but when the workspace teardown itself
fails, the teardown exception *does* propagate out of `deploy_repo` — so "no
exception propagates out of the unit's deploy routine" does not hold of every
such attempt. -/
theorem C3_counterexample :
    deploy_repo ⟨Except.ok "c", none, fun _ => Except.ok (), Except.error (Err.external 0)⟩ =
        [Ev.teardown false, Ev.setStatus (some "c") 2, Ev.raised (Err.external 0)] ∧
      raisedOf
          (deploy_repo
            ⟨Except.ok "c", none, fun _ => Except.ok (), Except.error (Err.external 0)⟩) =
        some (Err.external 0) := by
  exact ⟨rfl, rfl⟩

/-- Claim C3, amended.  If any exception occurs during fetch, validation or
action execution, the unit's outcome is recorded to the status store as failed
(-1) before that same exception is re-raised to the caller (even when
teardown also fails, the earlier exception is the one propagated); if the
workspace has no instruction document, the outcome is recorded as skipped (2)
and — provided the workspace teardown succeeds — no exception propagates out
of the unit's deploy routine (a teardown failure is still raised, after the
skipped status is recorded). -/
theorem C3_amended (env : DeployEnv) (e : Err) (c : String) (cfg : Cfg) :
    (env.fetch = Except.error e →
        ∃ b, deploy_repo env =
          [Ev.teardown b, Ev.setStatus none (-1), Ev.raised e]) ∧
      (env.fetch = Except.ok c → env.config = some cfg →
        (execute cfg env.run).2 = some e →
        ∃ b, deploy_repo env =
          (execute cfg env.run).1.map Ev.action ++
            [Ev.teardown b, Ev.setStatus (some c) (-1), Ev.raised e]) ∧
      (env.fetch = Except.ok c → env.config = none → env.cleanup = Except.ok () →
        deploy_repo env = [Ev.teardown true, Ev.setStatus (some c) 2]) := by
  refine ⟨?_, ?_, ?_⟩
  · intro h
    cases hc : env.cleanup with
    | ok u => exact ⟨true, by simp [deploy_repo, attempt, h, hc]⟩
    | error ce => exact ⟨false, by simp [deploy_repo, attempt, h, hc]⟩
  · intro h1 h2 hE
    rcases hx : execute cfg env.run with ⟨ex, err⟩
    rw [hx] at hE
    simp at hE
    subst hE
    cases hc : env.cleanup with
    | ok u => exact ⟨true, by simp [deploy_repo, attempt, h1, h2, hx, hc]⟩
    | error ce => exact ⟨false, by simp [deploy_repo, attempt, h1, h2, hx, hc]⟩
  · intro h1 h2 h3
    simp [deploy_repo, attempt, h1, h2, h3]

/-- Claim C3, witness: a fetch failure records status -1 before re-raising, a
validation failure records status -1 before re-raising, and a concrete
skipped unit (no instruction document, teardown succeeding) records status 2
and raises nothing. -/
theorem C3_amended_witness :
    (∃ b, deploy_repo ⟨Except.error (Err.external 3), none, fun _ => Except.ok (),
          Except.ok ()⟩ =
        [Ev.teardown b, Ev.setStatus none (-1), Ev.raised (Err.external 3)]) ∧
      (∃ b, deploy_repo ⟨Except.ok "c", some ⟨false, none, none, none, false⟩,
            fun _ => Except.ok (), Except.ok ()⟩ =
          (execute ⟨false, none, none, none, false⟩ (fun _ => Except.ok ())).1.map Ev.action ++
            [Ev.teardown b, Ev.setStatus (some "c") (-1), Ev.raised Err.notDict]) ∧
      deploy_repo ⟨Except.ok "c", none, fun _ => Except.ok (), Except.ok ()⟩ =
        [Ev.teardown true, Ev.setStatus (some "c") 2] :=
  ⟨(C3_amended ⟨Except.error (Err.external 3), none, fun _ => Except.ok (), Except.ok ()⟩
      (Err.external 3) "c" ⟨false, none, none, none, false⟩).1 rfl,
   (C3_amended ⟨Except.ok "c", some ⟨false, none, none, none, false⟩, fun _ => Except.ok (),
        Except.ok ()⟩ Err.notDict "c" ⟨false, none, none, none, false⟩).2.1 rfl rfl rfl,
   (C3_amended ⟨Except.ok "c", none, fun _ => Except.ok (), Except.ok ()⟩ (Err.external 0) "c"
      ⟨true, none, none, none, false⟩).2.2 rfl rfl rfl⟩

/-! ## Claim C4 -/

/-- Claim C4.  The batch runner attempts every unit in order (one unit's
failure never prevents later units from being attempted: the list of produced
traces is exactly the per-unit traces, whatever each unit raised), re-raises
exactly the first captured per-unit failure after all units are attempted, and
raises nothing when no unit fails. -/
theorem C4_deploy_all (envs : List DeployEnv) :
    (deploy_all envs).1 = envs.map deploy_repo ∧
      (deploy_all envs).2 =
        (envs.filterMap (fun env => raisedOf (deploy_repo env))).head? ∧
      ((∀ env ∈ envs, raisedOf (deploy_repo env) = none) → (deploy_all envs).2 = none) := by
  refine ⟨(deploy_all_go_spec envs).1, ?_, ?_⟩
  · show (deploy_all_go envs).2.head? = _
    rw [(deploy_all_go_spec envs).2]
  · intro h
    show (deploy_all_go envs).2.head? = none
    rw [(deploy_all_go_spec envs).2]
    rw [List.filterMap_eq_nil_iff.mpr h]
    rfl

/-- Claim C4, witness: a batch of three units whose second fails fetch — all
three are attempted and the raised error is the second unit's failure. -/
theorem C4_witness :
    (deploy_all
          [⟨Except.ok "a", none, fun _ => Except.ok (), Except.ok ()⟩,
           ⟨Except.error (Err.external 7), none, fun _ => Except.ok (), Except.ok ()⟩,
           ⟨Except.ok "b", none, fun _ => Except.ok (), Except.ok ()⟩]).1 =
        [deploy_repo ⟨Except.ok "a", none, fun _ => Except.ok (), Except.ok ()⟩,
         deploy_repo ⟨Except.error (Err.external 7), none, fun _ => Except.ok (), Except.ok ()⟩,
         deploy_repo ⟨Except.ok "b", none, fun _ => Except.ok (), Except.ok ()⟩] ∧
      (deploy_all
          [⟨Except.ok "a", none, fun _ => Except.ok (), Except.ok ()⟩,
           ⟨Except.error (Err.external 7), none, fun _ => Except.ok (), Except.ok ()⟩,
           ⟨Except.ok "b", none, fun _ => Except.ok (), Except.ok ()⟩]).2 =
        some (Err.external 7) ∧
      (deploy_all [⟨Except.ok "a", none, fun _ => Except.ok (), Except.ok ()⟩]).2 = none := by
  refine ⟨?_, ?_, ?_⟩
  · exact (C4_deploy_all _).1
  · rw [(C4_deploy_all _).2.1]
    rfl
  · refine (C4_deploy_all _).2.2 ?_
    intro env h
    rw [List.mem_singleton] at h
    subst h
    rfl

/-! ## Claim C5 -/

/-- Claim C5, counterexample.  When the shared-directory source does not
exist, the first call happily creates a dangling symbolic link; on the second
call `os.path.exists(dst)` is false (it follows the link), so the code calls
`os.symlink` again, which raises a file-exists error instead of succeeding
silently: `import` is not idempotent in this case. -/
theorem C5_counterexample :
    action_import false DstObj.absent = Except.ok (DstObj.symlink false) ∧
      action_import false (DstObj.symlink false) = Except.error ImportErr.fileExists := by
  constructor
  · rfl
  · rfl

/-- Claim C5, amended.  `import` creates the symbolic link when nothing
occupies the destination; a second call with the same arguments succeeds
silently *provided the link's target exists* (a dangling link created by the
first call makes the second call fail with a file-exists error from
`os.symlink`); and a non-link object at the destination fails with the
destination-conflict error on every call, whether or not the source exists. -/
theorem C5_amended (se : Bool) :
    action_import se DstObj.absent = Except.ok (DstObj.symlink se) ∧
      action_import true (DstObj.symlink true) = Except.ok (DstObj.symlink true) ∧
      action_import se DstObj.nonLink = Except.error ImportErr.conflict ∧
      action_import false (DstObj.symlink false) = Except.error ImportErr.fileExists := by
  refine ⟨rfl, rfl, rfl, rfl⟩

/-- Claim C5, witness for the amended claim, at a shared source that exists:
link creation, silent second call, and the conflict error. -/
theorem C5_amended_witness :
    action_import true DstObj.absent = Except.ok (DstObj.symlink true) ∧
      action_import true (DstObj.symlink true) = Except.ok (DstObj.symlink true) ∧
      action_import true DstObj.nonLink = Except.error ImportErr.conflict ∧
      action_import false (DstObj.symlink false) = Except.error ImportErr.fileExists :=
  C5_amended true

/-! ## Claim C6 -/

/-- Claim C6, counterexample.  Two failures of the claim: (1) the produced
file is the full header (wrapper prefix, lines, wrapper suffix) *followed by*
the original content — not prefix + lines + content + suffix as claimed: for
extension `js` and content `"X"` the two differ; (2) extension `p` is not in
the claim's supported set, yet the output is not the unchanged input, because
the source's `ext in ('php')` is a substring test that `"p"` passes. -/
theorem C6_counterexample :
    add_header "R" "C" "D" 0 "js" "X" ≠
        "/*\n" ++ headerBody "" "" "R" "C" "D" 0 ++ "X" ++ ("*/\n" ++ blanks) ∧
      add_header "R" "C" "D" 0 "p" "X" ≠ "X" := by
  constructor
  · decide
  · decide

/-- Claim C6, amended.  For every destination extension in the supported set,
the produced content equals the extension's full comment header — wrapper
prefix, then the banner and metadata lines, then the wrapper suffix — followed
by the original content; additionally, because the `php` test is a substring
membership, the extensions `p`, `ph`, `hp` and the empty extension also
receive the php wrapper; for every extension matching no branch the output
equals the input unchanged and no error is raised. -/
theorem C6_amended (rl c dt src : String) (t : Nat) :
    (∀ e ∈ (["html", "xml"] : List String),
        add_header rl c dt t e src =
          headerBlock "<!--\n" ("-->\n" ++ blanks) "" "" rl c dt t ++ src) ∧
      (∀ e ∈ (["js", "min.js", "css", "c", "cpp", "h", "hpp", "java"] : List String),
        add_header rl c dt t e src =
          headerBlock "/*\n" ("*/\n" ++ blanks) "" "" rl c dt t ++ src) ∧
      (∀ e ∈ (["py", "r", "coffee", "htaccess"] : List String),
        add_header rl c dt t e src =
          headerBlock "" blanks "# " " #" rl c dt t ++ src) ∧
      (∀ e ∈ (["php", "p", "ph", "hp", ""] : List String),
        add_header rl c dt t e src =
          headerBlock "<?php /*\n" ("*/\n" ++ blanks ++ "?>") "" "" rl c dt t ++ src) ∧
      (∀ e, header_branch e = false → add_header rl c dt t e src = src) := by
  refine ⟨?_, ?_, ?_, ?_, ?_⟩
  · intro e he
    fin_cases he <;> rfl
  · intro e he
    fin_cases he <;> rfl
  · intro e he
    fin_cases he <;> rfl
  · intro e he
    fin_cases he <;> rfl
  · intro e h
    unfold header_branch at h
    simp only [Bool.or_eq_false_iff] at h
    obtain ⟨⟨⟨h1, h2⟩, h3⟩, h4⟩ := h
    unfold add_header
    simp only [h1, h2, h3, h4, if_false, Bool.false_eq_true]

/-- Claim C6, witness: a concrete run of the amended claim on one extension
from each branch — `html`, `js`, `py`, `p` (the substring quirk) — and on
extension `txt` (no branch, content passed through). -/
theorem C6_amended_witness :
    add_header "R" "C" "D" 0 "html" "X" =
        headerBlock "<!--\n" ("-->\n" ++ blanks) "" "" "R" "C" "D" 0 ++ "X" ∧
      add_header "R" "C" "D" 0 "js" "X" =
        headerBlock "/*\n" ("*/\n" ++ blanks) "" "" "R" "C" "D" 0 ++ "X" ∧
      add_header "R" "C" "D" 0 "py" "X" =
        headerBlock "" blanks "# " " #" "R" "C" "D" 0 ++ "X" ∧
      add_header "R" "C" "D" 0 "p" "X" =
        headerBlock "<?php /*\n" ("*/\n" ++ blanks ++ "?>") "" "" "R" "C" "D" 0 ++ "X" ∧
      add_header "R" "C" "D" 0 "txt" "X" = "X" :=
  ⟨((C6_amended "R" "C" "D" "X" 0).1 "html" (by decide)),
   ((C6_amended "R" "C" "D" "X" 0).2.1 "js" (by decide)),
   ((C6_amended "R" "C" "D" "X" 0).2.2.1 "py" (by decide)),
   ((C6_amended "R" "C" "D" "X" 0).2.2.2.1 "p" (by decide)),
   ((C6_amended "R" "C" "D" "X" 0).2.2.2.2 "txt" (by decide))⟩

/-! ## Claim C7 -/

/-- Claim C7.  For a valid instruction document with `skip` true and a
non-empty `actions` list: no action is dispatched, the unit's outcome is
recorded as success (1), and the workspace teardown is still attempted. -/
theorem C7_skip (env : DeployEnv) (cfg : Cfg) (rows : List Row) (c : String)
    (hf : env.fetch = Except.ok c) (hcfg : env.config = some cfg)
    (hd : cfg.isDict = true) (ht : cfg.typeField = some "delphi deploy config")
    (hv : cfg.versionField = some 1) (ha : cfg.actionsField = some rows)
    (_hne : rows ≠ []) (hs : cfg.skipTrue = true) :
    (∀ i, Ev.action i ∉ deploy_repo env) ∧
      Ev.setStatus (some c) 1 ∈ deploy_repo env ∧
      ∃ b, Ev.teardown b ∈ deploy_repo env := by
  have hex : execute cfg env.run = ([], none) := by
    unfold execute
    simp [hd, ht, hv, ha, hs]
  have hat : attempt env = ⟨[], 1, some c, none⟩ := by
    simp [attempt, hf, hcfg, hex]
  cases hc : env.cleanup with
  | ok u =>
    refine ⟨?_, ?_, ⟨true, ?_⟩⟩ <;> simp [deploy_repo, hat, hc]
  | error ce =>
    refine ⟨?_, ?_, ⟨false, ?_⟩⟩ <;> simp [deploy_repo, hat, hc]

/-- Claim C7, witness: a concrete valid skip-document with one action — the
action is not dispatched and status 1 is recorded. -/
theorem C7_witness :
    Ev.action 0 ∉
        deploy_repo
          ⟨Except.ok "c",
           some ⟨true, some "delphi deploy config", some 1, some [Row.act "copy"], true⟩,
           fun _ => Except.ok (), Except.ok ()⟩ ∧
      Ev.setStatus (some "c") 1 ∈
        deploy_repo
          ⟨Except.ok "c",
           some ⟨true, some "delphi deploy config", some 1, some [Row.act "copy"], true⟩,
           fun _ => Except.ok (), Except.ok ()⟩ :=
  ⟨(C7_skip _ _ [Row.act "copy"] "c" rfl rfl rfl rfl rfl rfl (by simp) rfl).1 0,
   (C7_skip _ _ [Row.act "copy"] "c" rfl rfl rfl rfl rfl rfl (by simp) rfl).2.1⟩

/-! ## Claim C8 -/

/-- Claim C8.  The workspace teardown is attempted on every exit path of
`deploy_repo` (a teardown event occurs in every trace); when teardown fails
while an earlier exception exists (fetch failure or action/validation
failure), the earlier exception is the one re-raised and the teardown error is
suppressed; when teardown fails and no earlier exception exists (the unit
succeeded or was skipped), the teardown error itself is raised. -/
theorem C8_teardown (env : DeployEnv) (ce fe : Err) (c : String) (cfg : Cfg) :
    (∃ b, Ev.teardown b ∈ deploy_repo env) ∧
      (env.cleanup = Except.error ce → env.fetch = Except.error fe →
        raisedOf (deploy_repo env) = some fe) ∧
      (env.cleanup = Except.error ce → env.fetch = Except.ok c → env.config = some cfg →
        ∀ ee, (execute cfg env.run).2 = some ee → raisedOf (deploy_repo env) = some ee) ∧
      (env.cleanup = Except.error ce → env.fetch = Except.ok c → env.config = none →
        raisedOf (deploy_repo env) = some ce) ∧
      (env.cleanup = Except.error ce → env.fetch = Except.ok c → env.config = some cfg →
        (execute cfg env.run).2 = none → raisedOf (deploy_repo env) = some ce) := by
  refine ⟨?_, ?_, ?_, ?_, ?_⟩
  · cases hc : env.cleanup with
    | ok u => exact ⟨true, by simp [deploy_repo, hc]⟩
    | error e => exact ⟨false, by simp [deploy_repo, hc]⟩
  · intro hcl hf
    simp [deploy_repo, attempt, hf, hcl, raisedOf, raisedEv, List.filterMap_cons]
  · intro hcl hf hcfg ee hE
    rcases hx : execute cfg env.run with ⟨ex, err⟩
    rw [hx] at hE
    simp at hE
    subst hE
    simp [deploy_repo, attempt, hf, hcfg, hx, hcl, raisedOf_actions_append, raisedOf,
      raisedEv, List.filterMap_cons]
  · intro hcl hf hcfg
    simp [deploy_repo, attempt, hf, hcfg, hcl, raisedOf, raisedEv, List.filterMap_cons]
  · intro hcl hf hcfg hE
    rcases hx : execute cfg env.run with ⟨ex, err⟩
    rw [hx] at hE
    simp at hE
    subst hE
    simp [deploy_repo, attempt, hf, hcfg, hx, hcl, raisedOf_actions_append, raisedOf,
      raisedEv, List.filterMap_cons]

/-- Claim C8, witness: with a failing teardown, a fetch failure is the
exception re-raised (the teardown error is suppressed), so is a validation
failure; a skipped unit and a successfully-executed unit re-raise the
teardown error itself. -/
theorem C8_witness :
    raisedOf
        (deploy_repo
          ⟨Except.error (Err.external 1), none, fun _ => Except.ok (),
           Except.error (Err.external 2)⟩) =
      some (Err.external 1) ∧
      raisedOf
          (deploy_repo
            ⟨Except.ok "c", some ⟨false, none, none, none, false⟩, fun _ => Except.ok (),
             Except.error (Err.external 2)⟩) =
        some Err.notDict ∧
      raisedOf
          (deploy_repo
            ⟨Except.ok "c", none, fun _ => Except.ok (), Except.error (Err.external 2)⟩) =
        some (Err.external 2) ∧
      raisedOf
          (deploy_repo
            ⟨Except.ok "c",
             some ⟨true, some "delphi deploy config", some 1, some [], false⟩,
             fun _ => Except.ok (), Except.error (Err.external 2)⟩) =
        some (Err.external 2) :=
  ⟨(C8_teardown ⟨Except.error (Err.external 1), none, fun _ => Except.ok (),
        Except.error (Err.external 2)⟩ (Err.external 2) (Err.external 1) "c"
      ⟨true, none, none, none, false⟩).2.1 rfl rfl,
   (C8_teardown ⟨Except.ok "c", some ⟨false, none, none, none, false⟩, fun _ => Except.ok (),
        Except.error (Err.external 2)⟩ (Err.external 2) (Err.external 1) "c"
      ⟨false, none, none, none, false⟩).2.2.1 rfl rfl rfl Err.notDict rfl,
   (C8_teardown ⟨Except.ok "c", none, fun _ => Except.ok (), Except.error (Err.external 2)⟩
      (Err.external 2) (Err.external 1) "c" ⟨true, none, none, none, false⟩).2.2.2.1
     rfl rfl rfl,
   (C8_teardown ⟨Except.ok "c",
        some ⟨true, some "delphi deploy config", some 1, some [], false⟩,
        fun _ => Except.ok (), Except.error (Err.external 2)⟩ (Err.external 2)
      (Err.external 1) "c" ⟨true, some "delphi deploy config", some 1, some [], false⟩).2.2.2.2
     rfl rfl rfl rfl⟩

/-! ## Claim C9 -/

/-- Claim C9.  Config validation precedes the skip short-circuit: a document
with `skip` true but an invalid `type` sentinel, a `version` outside the
supported range, or an `actions` field that is not a list makes `execute`
fail with the corresponding invalid-config error (and dispatch no action)
instead of short-circuiting successfully. -/
theorem C9_validation_precedes_skip (cfg : Cfg) (run : Nat → Except Err Unit)
    (hd : cfg.isDict = true) (_hs : cfg.skipTrue = true)
    (h : cfg.typeField ≠ some "delphi deploy config" ∨
      ¬(1 ≤ cfg.versionField.getD 0 ∧ cfg.versionField.getD 0 ≤ 1) ∨
      cfg.actionsField = none) :
    (execute cfg run).1 = [] ∧
      ∃ f, (execute cfg run).2 = some (Err.invalidConfig f) ∧
        f ∈ (["type", "version", "actions"] : List String) := by
  by_cases ht : cfg.typeField = some "delphi deploy config"
  · by_cases hv : 1 ≤ cfg.versionField.getD 0 ∧ cfg.versionField.getD 0 ≤ 1
    · have ha : cfg.actionsField = none := by
        rcases h with h | h | h
        · exact absurd ht h
        · exact absurd hv h
        · exact h
      constructor
      · simp [execute, hd, ht, hv, ha]
      · exact ⟨"actions", by simp [execute, hd, ht, hv, ha], by simp⟩
    · constructor
      · simp [execute, hd, ht, hv]
      · exact ⟨"version", by simp [execute, hd, ht, hv], by simp⟩
  · constructor
    · simp [execute, hd, ht]
    · exact ⟨"type", by simp [execute, hd, ht], by simp⟩

/-- Claim C9, witness: a skip-true document whose version is 99 fails
validation with an invalid-config error and dispatches nothing. -/
theorem C9_witness :
    (execute ⟨true, some "delphi deploy config", some 99, some [], true⟩
          (fun _ => Except.ok ())).1 = [] ∧
      ∃ f,
        (execute ⟨true, some "delphi deploy config", some 99, some [], true⟩
              (fun _ => Except.ok ())).2 = some (Err.invalidConfig f) ∧
          f ∈ (["type", "version", "actions"] : List String) :=
  C9_validation_precedes_skip ⟨true, some "delphi deploy config", some 99, some [], true⟩
    (fun _ => Except.ok ()) rfl rfl (Or.inr (Or.inl (by decide)))

/-! ## Claim C10 -/

/-- Claim C10.  For every `copy`/`move` action with `match` present, a child
whose base name begins with a dot is never selected, whatever the `match`
expression: the glob `*` enumeration (line 313) skips hidden files before the
regular expression is ever consulted. -/
theorem C10_hidden_never_selected (m : String → Bool) (listing : List String)
    (n : String) (h : pyStartswith n "." = true) :
    n ∉ copymove_matched m listing := by
  unfold copymove_matched glob_children
  intro hmem
  have := (List.mem_filter.mp hmem).1
  have h2 := (List.mem_filter.mp this).2
  simp [h] at h2

/-- Claim C10, witness: the hidden file `.htaccess` is not selected even by a
matcher that accepts every name. -/
theorem C10_witness :
    ".htaccess" ∉ copymove_matched (fun _ => true) [".htaccess", "a.js"] :=
  C10_hidden_never_selected (fun _ => true) [".htaccess", "a.js"] ".htaccess" (by decide)

end GithubDeployRepo
